import Mathlib

/-!
Verification of the `alpha` 2D engine sources.

The transform / camera / picking pipeline (src/components.rs,
src/renderer/camera.rs, src/editor/gui.rs) is embedded over the reals:
`f32` arithmetic is idealised as real arithmetic, and glam's matrix
operations are translated as ordinary 4x4 matrix algebra (glam stores
matrices column-major, but its `Mat4 * Mat4` and `Mat4 * Vec4` implement
the standard mathematical products, which is what we write down).
-/

open Matrix

abbrev Mat4 : Type := Matrix (Fin 4) (Fin 4) ℝ

abbrev Vec4 : Type := Fin 4 → ℝ

/-- glam `f32::to_radians`: degrees to radians. -/
noncomputable def to_radians (x : ℝ) : ℝ := x * (Real.pi / 180)

/-- glam `Mat4::from_translation(Vec3::new(x, y, z))`. -/
def from_translation (x y z : ℝ) : Mat4 :=
  Matrix.of ![![1, 0, 0, x], ![0, 1, 0, y], ![0, 0, 1, z], ![0, 0, 0, 1]]

/-- glam `Mat4::from_rotation_z(angle)`. -/
noncomputable def from_rotation_z (angle : ℝ) : Mat4 :=
  Matrix.of ![![Real.cos angle, -Real.sin angle, 0, 0],
              ![Real.sin angle, Real.cos angle, 0, 0],
              ![0, 0, 1, 0], ![0, 0, 0, 1]]

/-- glam `Mat4::from_scale(Vec3::new(x, y, z))`. -/
def from_scale (x y z : ℝ) : Mat4 :=
  Matrix.of ![![x, 0, 0, 0], ![0, y, 0, 0], ![0, 0, z, 0], ![0, 0, 0, 1]]

/-- src/components.rs `Transform`: position, size, rotation in degrees. -/
structure Transform : Type where
  position : ℝ × ℝ
  size : ℝ × ℝ
  rotation : ℝ

/-- src/components.rs `compute_transformation_matrix`:
`from_translation(position) * from_rotation_z(-rotation.to_radians()) * from_scale(size.x, size.y, 0)`. -/
noncomputable def compute_transformation_matrix (t : Transform) : Mat4 :=
  from_translation t.position.1 t.position.2 0 *
    from_rotation_z (-(to_radians t.rotation)) *
    from_scale t.size.1 t.size.2 0

/-- src/components.rs `compute_inverse_transformation_matrix`:
`from_scale(1/size.x, 1/size.y, 0) * from_rotation_z(rotation.to_radians()) * from_translation(-position)`. -/
noncomputable def compute_inverse_transformation_matrix (t : Transform) : Mat4 :=
  from_scale (1 / t.size.1) (1 / t.size.2) 0 *
    from_rotation_z (to_radians t.rotation) *
    from_translation (-t.position.1) (-t.position.2) 0

/-- The matrix `diag(1, 1, 0, 1)`: identity on x, y, w but zero on z. -/
def diag1101 : Mat4 :=
  Matrix.of ![![1, 0, 0, 0], ![0, 1, 0, 0], ![0, 0, 0, 0], ![0, 0, 0, 1]]

lemma translation_mul_translation (x y z x' y' z' : ℝ) :
    from_translation x y z * from_translation x' y' z' =
      from_translation (x + x') (y + y') (z + z') := by
  ext i j
  fin_cases i <;> fin_cases j <;>
    simp [from_translation, Matrix.mul_apply, Fin.sum_univ_succ, Matrix.vecHead,
      Matrix.vecTail] <;> ring

lemma rotation_mul_rotation_neg (a : ℝ) :
    from_rotation_z a * from_rotation_z (-a) = 1 := by
  ext i j
  fin_cases i <;> fin_cases j <;>
    simp [from_rotation_z, Matrix.mul_apply, Fin.sum_univ_succ, Matrix.one_apply,
      Matrix.vecHead, Matrix.vecTail, Real.cos_neg, Real.sin_neg] <;>
    nlinarith [Real.sin_sq_add_cos_sq a]

lemma translation_zero : from_translation 0 0 0 = 1 := by
  ext i j
  fin_cases i <;> fin_cases j <;>
    simp [from_translation, Matrix.one_apply, Matrix.vecHead, Matrix.vecTail]

/-- Central algebraic fact: for nonzero sizes the composed product
`inverse * forward` collapses to `diag(1, 1, 0, 1)` (the z-scale of both
matrices is zero, so the z row is annihilated). -/
lemma inverse_mul_forward (t : Transform) (hx : t.size.1 ≠ 0) (hy : t.size.2 ≠ 0) :
    compute_inverse_transformation_matrix t * compute_transformation_matrix t =
      diag1101 := by
  unfold compute_inverse_transformation_matrix compute_transformation_matrix
  have hTT : from_translation (-t.position.1) (-t.position.2) 0 *
      (from_translation t.position.1 t.position.2 0 *
        (from_rotation_z (-(to_radians t.rotation)) * from_scale t.size.1 t.size.2 0)) =
      from_rotation_z (-(to_radians t.rotation)) * from_scale t.size.1 t.size.2 0 := by
    rw [← Matrix.mul_assoc, translation_mul_translation]
    simp [translation_zero]
  simp only [Matrix.mul_assoc]
  rw [hTT, ← Matrix.mul_assoc (from_rotation_z (to_radians t.rotation)),
    rotation_mul_rotation_neg, Matrix.one_mul]
  ext i j
  fin_cases i <;> fin_cases j <;>
    simp [from_scale, diag1101, Matrix.mul_apply, Fin.sum_univ_succ, Matrix.vecHead,
      Matrix.vecTail] <;>
    field_simp

lemma diag1101_mulVec (x y z w : ℝ) :
    diag1101.mulVec ![x, y, z, w] = ![x, y, 0, w] := by
  funext i
  fin_cases i <;>
    simp [diag1101, Matrix.mulVec, Matrix.dotProduct, Fin.sum_univ_succ, Matrix.vecHead,
      Matrix.vecTail]

/-- C1: for a Transform with nonzero size components and a local point among
(0,0), (1,1), (0.5,0.5) (homogeneous z = 0, w = 1), applying the forward
transformation matrix and then the inverse transformation matrix returns the
original x and y coordinates within 1e-4. -/
theorem transform_roundtrip_local_point (t : Transform)
    (hx : t.size.1 ≠ 0) (hy : t.size.2 ≠ 0) (x y : ℝ)
    (_hmem : (x, y) = ((0 : ℝ), (0 : ℝ)) ∨ (x, y) = (1, 1) ∨ (x, y) = (1 / 2, 1 / 2)) :
    |((compute_inverse_transformation_matrix t).mulVec
        ((compute_transformation_matrix t).mulVec ![x, y, 0, 1])) 0 - x| ≤ 1 / 10000 ∧
    |((compute_inverse_transformation_matrix t).mulVec
        ((compute_transformation_matrix t).mulVec ![x, y, 0, 1])) 1 - y| ≤ 1 / 10000 := by
  rw [Matrix.mulVec_mulVec, inverse_mul_forward t hx hy, diag1101_mulVec]
  norm_num

/-- Witness for C1 at Transform position (3,4), size (2,5), rotation 37, point (1,1). -/
theorem transform_roundtrip_local_point_witness :
    ((2 : ℝ) ≠ 0 ∧ (5 : ℝ) ≠ 0) ∧
    (|((compute_inverse_transformation_matrix (Transform.mk (3, 4) (2, 5) 37)).mulVec
        ((compute_transformation_matrix (Transform.mk (3, 4) (2, 5) 37)).mulVec
          ![1, 1, 0, 1])) 0 - 1| ≤ 1 / 10000 ∧
     |((compute_inverse_transformation_matrix (Transform.mk (3, 4) (2, 5) 37)).mulVec
        ((compute_transformation_matrix (Transform.mk (3, 4) (2, 5) 37)).mulVec
          ![1, 1, 0, 1])) 1 - 1| ≤ 1 / 10000) :=
  ⟨⟨by norm_num, by norm_num⟩,
    transform_roundtrip_local_point (Transform.mk (3, 4) (2, 5) 37)
      (by norm_num) (by norm_num) 1 1 (Or.inr (Or.inl rfl))⟩

/-- C2 counterexample: at Transform position (0,0), size (1,1), rotation 0, the
entry (2,2) of inverse * forward is 0, which differs from the identity entry 1
by more than 1e-4, so the product is not the identity within tolerance. -/
theorem inverse_mul_forward_not_identity :
    1 / 10000 <
      |(compute_inverse_transformation_matrix (Transform.mk (0, 0) (1, 1) 0) *
          compute_transformation_matrix (Transform.mk (0, 0) (1, 1) 0)) 2 2 -
        (1 : Mat4) 2 2| := by
  rw [inverse_mul_forward (Transform.mk (0, 0) (1, 1) 0) (by norm_num) (by norm_num)]
  norm_num [diag1101, Matrix.one_apply, Matrix.vecHead, Matrix.vecTail]

/-- C2 amended: for nonzero size components, inverse * forward agrees with the
4x4 identity within 1e-4 in every entry except (2,2), where it equals 0 (both
matrices bake a zero z-scale, so the z row is annihilated). -/
theorem inverse_mul_forward_diag (t : Transform)
    (hx : t.size.1 ≠ 0) (hy : t.size.2 ≠ 0) :
    (∀ i j : Fin 4, ¬(i = 2 ∧ j = 2) →
        |(compute_inverse_transformation_matrix t * compute_transformation_matrix t) i j -
          (1 : Mat4) i j| ≤ 1 / 10000) ∧
    (compute_inverse_transformation_matrix t * compute_transformation_matrix t) 2 2 = 0 := by
  rw [inverse_mul_forward t hx hy]
  constructor
  · intro i j hij
    fin_cases i <;> fin_cases j <;>
      [skip; skip; skip; skip; skip; skip; skip; skip; skip; skip;
        exact absurd ⟨rfl, rfl⟩ hij; skip; skip; skip; skip; skip] <;>
      norm_num [diag1101, Matrix.one_apply, Matrix.vecHead, Matrix.vecTail, Fin.ext_iff]
  · norm_num [diag1101, Matrix.vecHead, Matrix.vecTail]

/-- Witness for C2 amended at Transform position (7,-2), size (3,4), rotation 90. -/
theorem inverse_mul_forward_diag_witness :
    ((3 : ℝ) ≠ 0 ∧ (4 : ℝ) ≠ 0) ∧
    ((∀ i j : Fin 4, ¬(i = 2 ∧ j = 2) →
        |(compute_inverse_transformation_matrix (Transform.mk (7, -2) (3, 4) 90) *
            compute_transformation_matrix (Transform.mk (7, -2) (3, 4) 90)) i j -
          (1 : Mat4) i j| ≤ 1 / 10000) ∧
      (compute_inverse_transformation_matrix (Transform.mk (7, -2) (3, 4) 90) *
          compute_transformation_matrix (Transform.mk (7, -2) (3, 4) 90)) 2 2 = 0) :=
  ⟨⟨by norm_num, by norm_num⟩,
    inverse_mul_forward_diag (Transform.mk (7, -2) (3, 4) 90) (by norm_num) (by norm_num)⟩

/-! ## Camera (src/renderer/camera.rs) -/

/-- 3D vector helpers used by glam `look_at_lh` (modelled componentwise). -/
def dot3 (a b : ℝ × ℝ × ℝ) : ℝ := a.1 * b.1 + a.2.1 * b.2.1 + a.2.2 * b.2.2

def cross3 (a b : ℝ × ℝ × ℝ) : ℝ × ℝ × ℝ :=
  (a.2.1 * b.2.2 - a.2.2 * b.2.1, a.2.2 * b.1 - a.1 * b.2.2, a.1 * b.2.1 - a.2.1 * b.1)

def sub3 (a b : ℝ × ℝ × ℝ) : ℝ × ℝ × ℝ := (a.1 - b.1, a.2.1 - b.2.1, a.2.2 - b.2.2)

def smul3 (k : ℝ) (a : ℝ × ℝ × ℝ) : ℝ × ℝ × ℝ := (k * a.1, k * a.2.1, k * a.2.2)

noncomputable def normalize3 (a : ℝ × ℝ × ℝ) : ℝ × ℝ × ℝ :=
  smul3 (1 / Real.sqrt (dot3 a a)) a

/-- glam `Mat4::orthographic_lh(left, right, bottom, top, near, far)`. -/
noncomputable def orthographic_lh (left right bottom top near far : ℝ) : Mat4 :=
  Matrix.of ![![2 * (1 / (right - left)), 0, 0, -(left + right) * (1 / (right - left))],
              ![0, 2 * (1 / (top - bottom)), 0, -(top + bottom) * (1 / (top - bottom))],
              ![0, 0, 1 / (far - near), -(1 / (far - near)) * near],
              ![0, 0, 0, 1]]

/-- glam `Mat4::look_at_lh(eye, center, up)` (via `look_to_lh`). -/
noncomputable def look_at_lh (eye center up : ℝ × ℝ × ℝ) : Mat4 :=
  let f := normalize3 (sub3 center eye)
  let s := normalize3 (cross3 up f)
  let u := cross3 f s
  Matrix.of ![![s.1, s.2.1, s.2.2, -(dot3 s eye)],
              ![u.1, u.2.1, u.2.2, -(dot3 u eye)],
              ![f.1, f.2.1, f.2.2, -(dot3 f eye)],
              ![0, 0, 0, 1]]

/-- src/renderer/camera.rs `Camera`: stored width/height and view/projection matrices. -/
structure Camera : Type where
  width : ℕ
  height : ℕ
  view : Mat4
  projection : Mat4

/-- `Camera::new(width, height)`: orthographic projection over
`[0,width] x [0,height] x [-1,1]`; the stored view is `Mat4::IDENTITY`. -/
noncomputable def Camera.new (width height : ℕ) : Camera :=
  { width := width, height := height, view := 1,
    projection := orthographic_lh 0 (width : ℝ) 0 (height : ℝ) (-1) 1 }

/-- `Camera::resize(width, height)`: recomputes the projection only. -/
noncomputable def Camera.resize (c : Camera) (w h : ℕ) : Camera :=
  { c with
    width := w
    height := h
    projection := orthographic_lh 0 (w : ℝ) 0 (h : ℝ) (-1) 1 }

/-- `Camera::get_view()`: NOTE the source ignores the stored `view` field and
returns a hardcoded look-at matrix ("Just use some jankey values for look at
for now"). -/
noncomputable def Camera.get_view (_c : Camera) : Mat4 :=
  look_at_lh (-200, -200, -1) (-200, -200, 0) (0, 1, 0)

/-- `Camera::get_projection()`: returns the stored projection. -/
noncomputable def Camera.get_projection (c : Camera) : Mat4 := c.projection

/-- The hardcoded look-at matrix evaluates to a pure translation by (200, 200, 1). -/
lemma look_at_eval :
    look_at_lh (-200, -200, -1) (-200, -200, 0) (0, 1, 0) =
      from_translation 200 200 1 := by
  ext i j
  fin_cases i <;> fin_cases j <;>
    norm_num [look_at_lh, normalize3, sub3, dot3, cross3, smul3, Real.sqrt_one,
      from_translation, Matrix.vecHead, Matrix.vecTail]

/-- C7 counterexample: `get_view()` does not return the view matrix stored in
the Camera state. `Camera::new` stores the identity, but `get_view` returns
the hardcoded look-at matrix (a translation by (200, 200, 1)). -/
theorem get_view_ne_stored_view :
    Camera.get_view (Camera.new 800 600) ≠ (Camera.new 800 600).view := by
  intro h
  have h03 := congrFun (congrFun h 0) 3
  rw [Camera.get_view, look_at_eval] at h03
  simp only [Camera.new] at h03
  rw [Matrix.one_apply_ne (by decide : (0 : Fin 4) ≠ 3)] at h03
  norm_num [from_translation, Matrix.vecHead, Matrix.vecTail] at h03

/-- C7 amended: `get_projection()` is a pure accessor of the stored projection
matrix; `get_view()` is pure but returns a fixed hardcoded look-at matrix that
is independent of the camera state (it is not the stored `view` field). -/
theorem camera_accessor_behaviour :
    (∀ c : Camera, c.get_projection = c.projection) ∧
    (∀ c c' : Camera, c.get_view = c'.get_view) ∧
    (∀ c : Camera, c.get_view = from_translation 200 200 1) := by
  refine ⟨fun c => rfl, fun c c' => rfl, fun c => ?_⟩
  rw [Camera.get_view, look_at_eval]

/-! ## Picking coordinate chain (src/editor/gui.rs lines 195-236) -/

/-- The world position computed by the editor for a pointer:
window = mouse * scale_factor; viewport = window - rect_min * scale_factor;
ndc = (viewport / viewport_dims) * 2 - 1 with y negated;
world = view.inverse() * projection.inverse() * (ndc.x, ndc.y, 1, 1). -/
noncomputable def picking_world_pos (cam : Camera) (mouse rect_min scene_size : ℝ × ℝ)
    (scale_factor : ℝ) : ℝ × ℝ :=
  let window : ℝ × ℝ := (mouse.1 * scale_factor, mouse.2 * scale_factor)
  let viewport : ℝ × ℝ :=
    (window.1 - rect_min.1 * scale_factor, window.2 - rect_min.2 * scale_factor)
  let dims : ℝ × ℝ := (scene_size.1 * scale_factor, scene_size.2 * scale_factor)
  let ndc : Vec4 :=
    ![viewport.1 / dims.1 * 2 - 1, -(viewport.2 / dims.2 * 2 - 1), 1, 1]
  let world := ((cam.get_view)⁻¹ * (cam.get_projection)⁻¹).mulVec ndc
  (world 0, world 1)

/-- The per-entity hit test of the primary-click picking loop: the world point
(z = 0, w = 1) is pushed through the entity's inverse transformation matrix
and both local coordinates must lie in [0, 1]. -/
noncomputable def hit_test (t : Transform) (world : ℝ × ℝ) : Prop :=
  let tp := (compute_inverse_transformation_matrix t).mulVec ![world.1, world.2, 0, 1]
  0 ≤ tp 0 ∧ tp 0 ≤ 1 ∧ 0 ≤ tp 1 ∧ tp 1 ≤ 1

lemma camera800600_projection :
    (Camera.new 800 600).get_projection = orthographic_lh 0 800 0 600 (-1) 1 := by
  simp [Camera.get_projection, Camera.new]

lemma camera800600_projection_inv :
    (orthographic_lh 0 800 0 600 (-1) 1)⁻¹ =
      Matrix.of ![![400, 0, 0, 400], ![0, 300, 0, 300], ![0, 0, 2, -1], ![0, 0, 0, 1]] := by
  apply Matrix.inv_eq_right_inv
  ext i j
  fin_cases i <;> fin_cases j <;>
    norm_num [orthographic_lh, Matrix.mul_apply, Fin.sum_univ_succ, Matrix.one_apply,
      Matrix.vecHead, Matrix.vecTail, Fin.ext_iff]

lemma camera_view_inv (c : Camera) :
    (c.get_view)⁻¹ = from_translation (-200) (-200) (-1) := by
  rw [Camera.get_view, look_at_eval]
  apply Matrix.inv_eq_right_inv
  rw [translation_mul_translation]
  norm_num [translation_zero]

lemma inverse_matrix_rot0 (px py sx sy : ℝ) :
    compute_inverse_transformation_matrix (Transform.mk (px, py) (sx, sy) 0) =
      Matrix.of ![![1 / sx, 0, 0, 1 / sx * -px], ![0, 1 / sy, 0, 1 / sy * -py],
                  ![0, 0, 0, 0], ![0, 0, 0, 1]] := by
  unfold compute_inverse_transformation_matrix
  ext i j
  fin_cases i <;> fin_cases j <;>
    norm_num [to_radians, from_scale, from_rotation_z, from_translation,
      Matrix.mul_apply, Fin.sum_univ_succ, Matrix.vecHead, Matrix.vecTail]

/-- C5 counterexample: in the spec scenario (Camera(800,600); entity at
position (100,100), size (50,50), rotation 0; pointer at window pixel
(125,125) with the viewport covering the window and scale factor 1) the
picking chain does NOT produce a hit: the hardcoded look-at view matrix
shifts the un-projected point to world (-75, 275), whose local coordinates
(-3.5, 3.5) are outside the unit box. -/
theorem picking_scenario_not_hit :
    ¬ hit_test (Transform.mk (100, 100) (50, 50) 0)
        (picking_world_pos (Camera.new 800 600) (125, 125) (0, 0) (800, 600) 1) := by
  have hworld : picking_world_pos (Camera.new 800 600) (125, 125) (0, 0) (800, 600) 1 =
      (-75, 275) := by
    unfold picking_world_pos
    rw [camera800600_projection, camera800600_projection_inv, camera_view_inv]
    norm_num [from_translation, Matrix.mul_apply, Matrix.mulVec, Matrix.dotProduct,
      Fin.sum_univ_succ, Matrix.vecHead, Matrix.vecTail]
  rw [hworld]
  unfold hit_test
  rw [inverse_matrix_rot0]
  norm_num [Matrix.mulVec, Matrix.dotProduct, Fin.sum_univ_succ, Matrix.vecHead,
    Matrix.vecTail]

/-- C5 amended: in the spec scenario the chain maps pointer (125,125) to world
point (-75, 275) (the fixed look-at view translates world coordinates by
(200,200)), whose local coordinates lie outside [0,1]^2, so no hit is
reported; a pointer at window pixel (325, 275) instead lands at world
(125, 125), local (0.5, 0.5), and does produce a hit. -/
theorem picking_scenario_world_point :
    picking_world_pos (Camera.new 800 600) (125, 125) (0, 0) (800, 600) 1 = (-75, 275) ∧
    ¬ hit_test (Transform.mk (100, 100) (50, 50) 0) ((-75 : ℝ), (275 : ℝ)) ∧
    picking_world_pos (Camera.new 800 600) (325, 275) (0, 0) (800, 600) 1 = (125, 125) ∧
    hit_test (Transform.mk (100, 100) (50, 50) 0) ((125 : ℝ), (125 : ℝ)) := by
  refine ⟨?_, ?_, ?_, ?_⟩
  · unfold picking_world_pos
    rw [camera800600_projection, camera800600_projection_inv, camera_view_inv]
    norm_num [from_translation, Matrix.mul_apply, Matrix.mulVec, Matrix.dotProduct,
      Fin.sum_univ_succ, Matrix.vecHead, Matrix.vecTail]
  · unfold hit_test
    rw [inverse_matrix_rot0]
    norm_num [Matrix.mulVec, Matrix.dotProduct, Fin.sum_univ_succ, Matrix.vecHead,
      Matrix.vecTail]
  · unfold picking_world_pos
    rw [camera800600_projection, camera800600_projection_inv, camera_view_inv]
    norm_num [from_translation, Matrix.mul_apply, Matrix.mulVec, Matrix.dotProduct,
      Fin.sum_univ_succ, Matrix.vecHead, Matrix.vecTail]
  · unfold hit_test
    rw [inverse_matrix_rot0]
    norm_num [Matrix.mulVec, Matrix.dotProduct, Fin.sum_univ_succ, Matrix.vecHead,
      Matrix.vecTail]

/-! ## Render target redirection (src/renderer.rs `draw_rect`, `render_to_texture`)

The Renderer's `output_texture : Option<Arc<RefCell<TextureView>>>` is modelled
as `Option ℕ` (texture-view handles as numbers).  `draw_rect` takes the stored
option; when it holds a view it renders into that view, does not touch the
swap chain, and puts the same view back; when it is empty it acquires the
swap-chain surface texture, renders into it and presents it. -/

inductive RenderTarget : Type where
  | surface : RenderTarget
  | texture : ℕ → RenderTarget
  deriving DecidableEq

structure DrawOutcome : Type where
  target : RenderTarget
  surface_acquired : Bool
  surface_presented : Bool
  deriving DecidableEq

/-- `Renderer::render_to_texture(texture)`: overwrite the stored output. -/
def render_to_texture (_state texture : Option ℕ) : Option ℕ := texture

/-- The output-selection and restore logic of one `Renderer::draw_rect` call:
`self.output_texture.take()` then either render-to-view-and-put-back or
acquire-render-present. -/
def draw_rect_target : Option ℕ → DrawOutcome × Option ℕ
  | some view =>
    ({ target := RenderTarget.texture view, surface_acquired := false,
       surface_presented := false }, some view)
  | none =>
    ({ target := RenderTarget.surface, surface_acquired := true,
       surface_presented := true }, none)

/-- The outcomes and final state of `n` consecutive `draw_rect` calls. -/
def draw_seq : Option ℕ → ℕ → List DrawOutcome × Option ℕ
  | s, 0 => ([], s)
  | s, n + 1 =>
    let p := draw_rect_target s
    let q := draw_seq p.2 n
    (p.1 :: q.1, q.2)

lemma draw_seq_some (h : ℕ) : ∀ n : ℕ,
    draw_seq (some h) n =
      (List.replicate n
        { target := RenderTarget.texture h, surface_acquired := false,
          surface_presented := false }, some h)
  | 0 => rfl
  | n + 1 => by
    simp [draw_seq, draw_rect_target, draw_seq_some h n, List.replicate]

/-- C3: after `render_to_texture(Some(h))`, every one of the following
`draw_rect` calls targets the texture view `h`, never acquires or presents
the swap-chain surface, and leaves `h` installed as the output target; after
`render_to_texture(None)` the next `draw_rect` targets the swap-chain surface
(acquiring and presenting it), not `h`. -/
theorem render_to_texture_redirection (h : ℕ) (s0 s1 : Option ℕ) (n : ℕ) :
    ((draw_seq (render_to_texture s0 (some h)) n).2 = some h ∧
      ∀ o ∈ (draw_seq (render_to_texture s0 (some h)) n).1,
        o.target = RenderTarget.texture h ∧ o.surface_acquired = false ∧
          o.surface_presented = false) ∧
    ((draw_rect_target (render_to_texture s1 none)).1.target = RenderTarget.surface ∧
      (draw_rect_target (render_to_texture s1 none)).1.target ≠ RenderTarget.texture h ∧
      (draw_rect_target (render_to_texture s1 none)).1.surface_acquired = true ∧
      (draw_rect_target (render_to_texture s1 none)).1.surface_presented = true) := by
  refine ⟨⟨?_, ?_⟩, by simp [render_to_texture, draw_rect_target]⟩
  · rw [render_to_texture, draw_seq_some]
  · rw [render_to_texture, draw_seq_some]
    intro o ho
    rw [List.eq_of_mem_replicate ho]
    exact ⟨rfl, rfl, rfl⟩

/-! ## Picking loop (src/editor/gui.rs lines 223-236)

On a primary click the editor iterates `world.query::<(&Transform,)>` and for
every entity whose hit test succeeds it overwrites `state.active_entity`,
without breaking out of the loop.  The ECS world iteration is modelled as a
list of (entity id, Transform) pairs in query order, which is also the order
`system_render` (src/game.rs) submits draws in. -/

def pick_fold (hits : ℕ × Transform → Bool) (entities : List (ℕ × Transform))
    (active : Option ℕ) : Option ℕ :=
  entities.foldl (fun acc e => if hits e then some e.1 else acc) active

lemma pick_fold_append (hits : ℕ × Transform → Bool) (l l' : List (ℕ × Transform))
    (active : Option ℕ) :
    pick_fold hits (l ++ l') active = pick_fold hits l' (pick_fold hits l active) := by
  simp [pick_fold, List.foldl_append]

lemma pick_fold_none (hits : ℕ × Transform → Bool) :
    ∀ (l : List (ℕ × Transform)) (active : Option ℕ),
      (∀ e ∈ l, hits e = false) → pick_fold hits l active = active
  | [], _, _ => rfl
  | e :: l, active, hmiss => by
    rw [pick_fold, List.foldl_cons]
    simp only [hmiss e (List.mem_cons_self e l), Bool.false_eq_true, if_false]
    exact pick_fold_none hits l active fun e' he' => hmiss e' (List.mem_cons_of_mem e he')

/-- C4: the picking loop keeps overwriting the stored hit without breaking
early, so the last entity in iteration order whose inverse transform maps the
clicked world point into [0,1]^2 wins.  For two overlapping entities a and b
with b later in iteration (= draw submission) order and no later hit, the
selected active entity is b. -/
theorem pick_topmost_wins (world : ℝ × ℝ) (hits : ℕ × Transform → Bool)
    (l1 l2 l3 : List (ℕ × Transform)) (a b : ℕ × Transform) (active : Option ℕ)
    (hlink : ∀ e ∈ l1 ++ a :: l2 ++ b :: l3, hits e = true ↔ hit_test e.2 world)
    (_ha : hit_test a.2 world) (hb : hit_test b.2 world)
    (h3 : ∀ e ∈ l3, ¬ hit_test e.2 world) :
    pick_fold hits (l1 ++ a :: l2 ++ b :: l3) active = some b.1 := by
  have hbmem : b ∈ l1 ++ a :: l2 ++ b :: l3 := by simp
  have hbtrue : hits b = true := (hlink b hbmem).mpr hb
  have h3false : ∀ e ∈ l3, hits e = false := by
    intro e he
    have hmem : e ∈ l1 ++ a :: l2 ++ b :: l3 := by simp [he]
    rcases Bool.eq_false_or_eq_true (hits e) with ht | hf
    · exact absurd ((hlink e hmem).mp ht) (h3 e he)
    · exact hf
  have hsplit : l1 ++ a :: l2 ++ b :: l3 = (l1 ++ a :: l2 ++ [b]) ++ l3 := by simp
  rw [hsplit, pick_fold_append,
    pick_fold_none hits l3 _ h3false]
  have hsplit2 : l1 ++ a :: l2 ++ [b] = (l1 ++ a :: l2) ++ [b] := by simp
  rw [hsplit2, pick_fold_append]
  simp [pick_fold, hbtrue]

lemma hit_test_unit_half : hit_test (Transform.mk (0, 0) (1, 1) 0) (1 / 2, 1 / 2) := by
  unfold hit_test
  rw [inverse_matrix_rot0]
  norm_num [Matrix.mulVec, Matrix.dotProduct, Fin.sum_univ_succ, Matrix.vecHead,
    Matrix.vecTail]

/-- Witness for C4: two unit-square entities at the origin, world point
(0.5, 0.5) inside both; the second one (id 1) is selected. -/
theorem pick_topmost_wins_witness :
    hit_test (Transform.mk (0, 0) (1, 1) 0) (1 / 2, 1 / 2) ∧
    pick_fold (fun _ => true)
      ([] ++ (0, Transform.mk (0, 0) (1, 1) 0) ::
        ([] ++ (1, Transform.mk (0, 0) (1, 1) 0) :: [])) none = some 1 :=
  ⟨hit_test_unit_half,
    pick_topmost_wins (1 / 2, 1 / 2) (fun _ => true) [] [] []
      (0, Transform.mk (0, 0) (1, 1) 0) (1, Transform.mk (0, 0) (1, 1) 0) none
      (by
        intro e he
        constructor
        · intro _
          have he' : e = (0, Transform.mk (0, 0) (1, 1) 0) ∨
              e = (1, Transform.mk (0, 0) (1, 1) 0) := by simpa using he
          rcases he' with h | h <;> (subst h; exact hit_test_unit_half)
        · intro _
          rfl)
      hit_test_unit_half hit_test_unit_half (by intro e he; simp at he)⟩

/-! ## Scene batch (C6)

Modelled from the spec: the batched scene renderer (`begin_scene` /
`draw_rect(scene, rect)` / `end_scene`) that src/game.rs `system_render`
drives is not present under src/ (src/renderer.rs holds an older
immediate-mode `draw_rect`).  Following spec section 4.3, `begin_scene` opens
an empty batch with index_offset 0 and each `draw_rect` appends 4 vertices
(the forward matrix applied to each local corner, corners and triangle
indices as in src/renderer/rect.rs: VERTEX_COORDS = [(1,1),(0,1),(0,0),(1,0)]
and INDICES = [0,1,2, 0,2,3]) and 6 indices offset by the running
index_offset, then increments the offset by 4. -/

structure BatchVertex : Type where
  position : ℝ × ℝ
  color : ℝ × ℝ × ℝ × ℝ

structure SceneBatch : Type where
  vertices : List BatchVertex
  indices : List ℕ
  index_offset : ℕ

/-- One local corner of the unit quad pushed through the forward matrix. -/
noncomputable def rect_corner (t : Transform) (c : ℝ × ℝ) : ℝ × ℝ :=
  ((compute_transformation_matrix t).mulVec ![c.1, c.2, 0, 1] 0,
   (compute_transformation_matrix t).mulVec ![c.1, c.2, 0, 1] 1)

/-- `begin_scene`: empty vertex/index containers, index_offset = 0. -/
def begin_scene : SceneBatch := { vertices := [], indices := [], index_offset := 0 }

/-- Modelled from the spec: one scene-batch `draw_rect` call. -/
noncomputable def draw_rect_batch (t : Transform) (color : ℝ × ℝ × ℝ × ℝ)
    (b : SceneBatch) : SceneBatch :=
  { vertices := b.vertices ++
      [{ position := rect_corner t (1, 1), color := color },
       { position := rect_corner t (0, 1), color := color },
       { position := rect_corner t (0, 0), color := color },
       { position := rect_corner t (1, 0), color := color }],
    indices := b.indices ++
      [b.index_offset + 0, b.index_offset + 1, b.index_offset + 2,
       b.index_offset + 0, b.index_offset + 2, b.index_offset + 3],
    index_offset := b.index_offset + 4 }

/-- `system_render` (src/game.rs): draw each (Transform, color) pair in query
order into the open batch. -/
noncomputable def draw_rects (rs : List (Transform × (ℝ × ℝ × ℝ × ℝ)))
    (b : SceneBatch) : SceneBatch :=
  rs.foldl (fun acc r => draw_rect_batch r.1 r.2 acc) b

lemma draw_rects_spec :
    ∀ (rs : List (Transform × (ℝ × ℝ × ℝ × ℝ))) (b : SceneBatch),
      b.index_offset = b.vertices.length →
      (∀ i ∈ b.indices, i < b.vertices.length) →
      (draw_rects rs b).vertices.length = b.vertices.length + 4 * rs.length ∧
      (draw_rects rs b).index_offset = b.index_offset + 4 * rs.length ∧
      (draw_rects rs b).indices.length = b.indices.length + 6 * rs.length ∧
      (∀ i ∈ (draw_rects rs b).indices, i < (draw_rects rs b).vertices.length)
  | [], b, hoff, hbound => by
    refine ⟨by simp [draw_rects], by simp [draw_rects], by simp [draw_rects], ?_⟩
    simpa [draw_rects] using hbound
  | r :: rs, b, hoff, hbound => by
    have hoff' : (draw_rect_batch r.1 r.2 b).index_offset =
        (draw_rect_batch r.1 r.2 b).vertices.length := by
      simp [draw_rect_batch, hoff]
    have hbound' : ∀ i ∈ (draw_rect_batch r.1 r.2 b).indices,
        i < (draw_rect_batch r.1 r.2 b).vertices.length := by
      intro i hi
      simp only [draw_rect_batch, List.mem_append, List.mem_cons,
        List.not_mem_nil, or_false] at hi
      simp only [draw_rect_batch, List.length_append, List.length_cons,
        List.length_nil]
      rcases hi with hi | hi
      · have := hbound i hi
        omega
      · rcases hi with h | h | h | h | h | h <;> (subst h; omega)
    have ih := draw_rects_spec rs (draw_rect_batch r.1 r.2 b) hoff' hbound'
    have hv : (draw_rect_batch r.1 r.2 b).vertices.length = b.vertices.length + 4 := by
      simp [draw_rect_batch]
    have hixs : (draw_rect_batch r.1 r.2 b).indices.length = b.indices.length + 6 := by
      simp [draw_rect_batch]
    have hoffshift : (draw_rect_batch r.1 r.2 b).index_offset = b.index_offset + 4 := by
      simp [draw_rect_batch]
    have hfold : draw_rects (r :: rs) b = draw_rects rs (draw_rect_batch r.1 r.2 b) := by
      simp [draw_rects]
    rw [hfold]
    refine ⟨?_, ?_, ?_, ih.2.2.2⟩
    · rw [ih.1, hv, List.length_cons]
      ring
    · rw [ih.2.1, hoffshift, List.length_cons]
      ring
    · rw [ih.2.2.1, hixs, List.length_cons]
      ring

/-- C6: drawing N rects through the scene-batch path starting from
`begin_scene` produces exactly 4N vertices and 6N indices, each rect
contributing triangles {0,1,2},{0,2,3} shifted by the running offset
(incremented by 4 per rect), and every index value is < 4N. -/
theorem scene_batch_counts (rs : List (Transform × (ℝ × ℝ × ℝ × ℝ))) :
    (draw_rects rs begin_scene).vertices.length = 4 * rs.length ∧
    (draw_rects rs begin_scene).indices.length = 6 * rs.length ∧
    (draw_rects rs begin_scene).index_offset = 4 * rs.length ∧
    ∀ i ∈ (draw_rects rs begin_scene).indices, i < 4 * rs.length := by
  have h := draw_rects_spec rs begin_scene (by simp [begin_scene]) (by simp [begin_scene])
  have hv : (draw_rects rs begin_scene).vertices.length = 4 * rs.length := by
    simpa [begin_scene] using h.1
  refine ⟨hv, by simpa [begin_scene] using h.2.2.1, by simpa [begin_scene] using h.2.1, ?_⟩
  intro i hi
  have := h.2.2.2 i hi
  omega

/-! ## Renderer::resize (src/renderer.rs lines 101-110) -/

/-- The Renderer fields touched by `resize`: width, height, scale_factor, the
surface configuration's dimensions, and a counter of `surface.configure`
calls (to observe whether the surface was reconfigured). -/
structure RendererSize : Type where
  width : ℕ
  height : ℕ
  scale_factor : ℚ
  config_width : ℕ
  config_height : ℕ
  surface_configure_count : ℕ
  deriving DecidableEq

/-- `Renderer::resize(width, height, scale_factor)`: guarded by
`width > 0 && height > 0`. -/
def renderer_resize (r : RendererSize) (width height : ℕ) (scale_factor : ℚ) :
    RendererSize :=
  if 0 < width ∧ 0 < height then
    { width := width, height := height, scale_factor := scale_factor,
      config_width := width, config_height := height,
      surface_configure_count := r.surface_configure_count + 1 }
  else r

/-- C10: a resize with a zero dimension leaves the Renderer completely
unchanged (no field update, no surface reconfiguration); a resize with both
dimensions positive installs the new values and reconfigures the surface
exactly once. -/
theorem resize_zero_noop (r : RendererSize) (width height : ℕ) (scale_factor : ℚ)
    (hz : width = 0 ∨ height = 0) :
    renderer_resize r width height scale_factor = r ∧
    (∀ w h : ℕ, ∀ sf : ℚ, 0 < w → 0 < h →
      renderer_resize r w h sf =
        { width := w, height := h, scale_factor := sf, config_width := w,
          config_height := h,
          surface_configure_count := r.surface_configure_count + 1 }) := by
  constructor
  · rw [renderer_resize, if_neg]
    omega
  · intro w h sf hw hh
    rw [renderer_resize, if_pos ⟨hw, hh⟩]

/-- Witness for C10: resize to (0, 5) leaves a concrete Renderer unchanged. -/
theorem resize_zero_noop_witness :
    ((0 : ℕ) = 0 ∨ (5 : ℕ) = 0) ∧
    renderer_resize (RendererSize.mk 800 600 1 800 600 3) 0 5 2 =
      RendererSize.mk 800 600 1 800 600 3 :=
  ⟨Or.inl rfl,
    (resize_zero_noop (RendererSize.mk 800 600 1 800 600 3) 0 5 2 (Or.inl rfl)).1⟩

/-! ## Zero-size picking (C9): IEEE semantics of the unguarded inverse

The picking loop in src/editor/gui.rs calls
`compute_inverse_transformation_matrix` for every entity with a Transform,
with no guard on zero size.  In Rust `1.0f32 / 0.0` is `+inf`, not a crash;
the infinities then meet the zero entries of the composed matrices and
produce NaN, and every comparison against NaN is false.  To settle the claim
we re-embed the inverse-transform computation over an IEEE-style value type
`FV` (finite real, +inf, -inf, NaN) instead of plain reals. -/

inductive FV : Type where
  | fin : ℝ → FV
  | pinf : FV
  | ninf : FV
  | nan : FV

/-- IEEE addition on `FV` (finite arithmetic idealised as exact). -/
def FV.add : FV → FV → FV
  | nan, _ => nan
  | _, nan => nan
  | pinf, ninf => nan
  | ninf, pinf => nan
  | pinf, _ => pinf
  | ninf, _ => ninf
  | fin _, pinf => pinf
  | fin _, ninf => ninf
  | fin a, fin b => fin (a + b)

/-- IEEE multiplication on `FV`: infinity times zero is NaN. -/
noncomputable def FV.mul : FV → FV → FV
  | nan, _ => nan
  | _, nan => nan
  | fin a, fin b => fin (a * b)
  | pinf, fin b => if 0 < b then pinf else if b < 0 then ninf else nan
  | fin a, pinf => if 0 < a then pinf else if a < 0 then ninf else nan
  | ninf, fin b => if 0 < b then ninf else if b < 0 then pinf else nan
  | fin a, ninf => if 0 < a then ninf else if a < 0 then pinf else nan
  | pinf, pinf => pinf
  | pinf, ninf => ninf
  | ninf, pinf => ninf
  | ninf, ninf => pinf

/-- IEEE division on `FV`: a positive finite value divided by zero is +inf. -/
noncomputable def FV.div : FV → FV → FV
  | nan, _ => nan
  | _, nan => nan
  | fin a, fin b =>
    if b = 0 then (if 0 < a then pinf else if a < 0 then ninf else nan)
    else fin (a / b)
  | pinf, fin b => if 0 ≤ b then pinf else ninf
  | ninf, fin b => if 0 ≤ b then ninf else pinf
  | fin _, pinf => fin 0
  | fin _, ninf => fin 0
  | pinf, pinf => nan
  | pinf, ninf => nan
  | ninf, pinf => nan
  | ninf, ninf => nan

/-- IEEE `<=` on `FV`: every comparison involving NaN is false. -/
def FV.le : FV → FV → Prop
  | nan, _ => False
  | _, nan => False
  | _, pinf => True
  | ninf, _ => True
  | pinf, _ => False
  | fin _, ninf => False
  | fin a, fin b => a ≤ b

lemma FV.nan_add (v : FV) : FV.add FV.nan v = FV.nan := by cases v <;> rfl

lemma FV.add_nan (v : FV) : FV.add v FV.nan = FV.nan := by cases v <;> rfl

lemma FV.nan_mul (v : FV) : FV.mul FV.nan v = FV.nan := by cases v <;> rfl

lemma FV.mul_nan (v : FV) : FV.mul v FV.nan = FV.nan := by cases v <;> rfl

lemma FV.pinf_mul_fin_zero : FV.mul FV.pinf (FV.fin 0) = FV.nan := by
  rw [FV.mul]
  norm_num

lemma FV.fin_mul_fin (a b : ℝ) : FV.mul (FV.fin a) (FV.fin b) = FV.fin (a * b) := rfl

lemma FV.fin_add_fin (a b : ℝ) : FV.add (FV.fin a) (FV.fin b) = FV.fin (a + b) := rfl

lemma FV.div_one_zero : FV.div (FV.fin 1) (FV.fin 0) = FV.pinf := by
  rw [FV.div]
  norm_num

lemma FV.not_le_fin_nan (a : ℝ) : ¬ FV.le (FV.fin a) FV.nan := fun h => h

abbrev Vec4F : Type := Fin 4 → FV

abbrev Mat4F : Type := Fin 4 → Fin 4 → FV

/-- glam `Vec4::dot`-style accumulation order used by the matrix product. -/
noncomputable def dot4F (a b : Vec4F) : FV :=
  FV.add (FV.add (FV.add (FV.mul (a 0) (b 0)) (FV.mul (a 1) (b 1)))
    (FV.mul (a 2) (b 2))) (FV.mul (a 3) (b 3))

noncomputable def mulMatF (A B : Mat4F) : Mat4F :=
  fun i j => dot4F (fun k => A i k) (fun k => B k j)

noncomputable def mulVecF (A : Mat4F) (v : Vec4F) : Vec4F :=
  fun i => dot4F (fun k => A i k) v

lemma dot4F_nan2 (a b : Vec4F) (h : a 2 = FV.nan) : dot4F a b = FV.nan := by
  rw [dot4F, h, FV.nan_mul, FV.add_nan, FV.nan_add]

def from_scale_F (x y z : FV) : Mat4F :=
  ![![x, FV.fin 0, FV.fin 0, FV.fin 0],
    ![FV.fin 0, y, FV.fin 0, FV.fin 0],
    ![FV.fin 0, FV.fin 0, z, FV.fin 0],
    ![FV.fin 0, FV.fin 0, FV.fin 0, FV.fin 1]]

noncomputable def from_rotation_z_F (angle : ℝ) : Mat4F :=
  ![![FV.fin (Real.cos angle), FV.fin (-Real.sin angle), FV.fin 0, FV.fin 0],
    ![FV.fin (Real.sin angle), FV.fin (Real.cos angle), FV.fin 0, FV.fin 0],
    ![FV.fin 0, FV.fin 0, FV.fin 1, FV.fin 0],
    ![FV.fin 0, FV.fin 0, FV.fin 0, FV.fin 1]]

def from_translation_F (x y z : FV) : Mat4F :=
  ![![FV.fin 1, FV.fin 0, FV.fin 0, x],
    ![FV.fin 0, FV.fin 1, FV.fin 0, y],
    ![FV.fin 0, FV.fin 0, FV.fin 1, z],
    ![FV.fin 0, FV.fin 0, FV.fin 0, FV.fin 1]]

/-- src/components.rs `compute_inverse_transformation_matrix`, re-embedded
over IEEE values (the two `1.0 / size` divisions are IEEE divisions). -/
noncomputable def compute_inverse_transformation_matrix_F (t : Transform) : Mat4F :=
  mulMatF
    (mulMatF
      (from_scale_F (FV.div (FV.fin 1) (FV.fin t.size.1))
        (FV.div (FV.fin 1) (FV.fin t.size.2)) (FV.fin 0))
      (from_rotation_z_F (to_radians t.rotation)))
    (from_translation_F (FV.fin (-t.position.1)) (FV.fin (-t.position.2)) (FV.fin 0))

/-- The picking test point, over IEEE values. -/
noncomputable def test_point_F (t : Transform) (world : ℝ × ℝ) : Vec4F :=
  mulVecF (compute_inverse_transformation_matrix_F t)
    ![FV.fin world.1, FV.fin world.2, FV.fin 0, FV.fin 1]

/-- The picking hit test over IEEE values: both local coordinates in [0,1]. -/
noncomputable def hit_test_F (t : Transform) (world : ℝ × ℝ) : Prop :=
  FV.le (FV.fin 0) (test_point_F t world 0) ∧
  FV.le (test_point_F t world 0) (FV.fin 1) ∧
  FV.le (FV.fin 0) (test_point_F t world 1) ∧
  FV.le (test_point_F t world 1) (FV.fin 1)

lemma zero_sx_row0 (t : Transform) (h : t.size.1 = 0) :
    (mulMatF
      (from_scale_F (FV.div (FV.fin 1) (FV.fin t.size.1))
        (FV.div (FV.fin 1) (FV.fin t.size.2)) (FV.fin 0))
      (from_rotation_z_F (to_radians t.rotation))) 0 2 = FV.nan := by
  simp [mulMatF, dot4F, from_scale_F, from_rotation_z_F, h, FV.div_one_zero,
    FV.pinf_mul_fin_zero, FV.fin_mul_fin, FV.fin_add_fin, FV.nan_add, FV.add_nan,
    Matrix.cons_val_zero, Matrix.cons_val_one, Matrix.head_cons, Matrix.vecHead,
    Matrix.vecTail]

lemma zero_sy_row1 (t : Transform) (h : t.size.2 = 0) :
    (mulMatF
      (from_scale_F (FV.div (FV.fin 1) (FV.fin t.size.1))
        (FV.div (FV.fin 1) (FV.fin t.size.2)) (FV.fin 0))
      (from_rotation_z_F (to_radians t.rotation))) 1 2 = FV.nan := by
  simp [mulMatF, dot4F, from_scale_F, from_rotation_z_F, h, FV.div_one_zero,
    FV.pinf_mul_fin_zero, FV.fin_mul_fin, FV.fin_add_fin, FV.nan_add, FV.add_nan,
    Matrix.cons_val_zero, Matrix.cons_val_one, Matrix.head_cons, Matrix.vecHead,
    Matrix.vecTail]

lemma zero_sx_test_point (t : Transform) (h : t.size.1 = 0) (world : ℝ × ℝ) :
    test_point_F t world 0 = FV.nan := by
  have hM : compute_inverse_transformation_matrix_F t 0 2 = FV.nan := by
    unfold compute_inverse_transformation_matrix_F mulMatF
    exact dot4F_nan2 _ _ (zero_sx_row0 t h)
  unfold test_point_F mulVecF
  exact dot4F_nan2 _ _ hM

lemma zero_sy_test_point (t : Transform) (h : t.size.2 = 0) (world : ℝ × ℝ) :
    test_point_F t world 1 = FV.nan := by
  have hM : compute_inverse_transformation_matrix_F t 1 2 = FV.nan := by
    unfold compute_inverse_transformation_matrix_F mulMatF
    exact dot4F_nan2 _ _ (zero_sy_row1 t h)
  unfold test_point_F mulVecF
  exact dot4F_nan2 _ _ hM

lemma pick_fold_result (hits : ℕ × Transform → Bool) :
    ∀ (l : List (ℕ × Transform)) (active : Option ℕ),
      pick_fold hits l active = active ∨
        ∃ e ∈ l, hits e = true ∧ pick_fold hits l active = some e.1
  | [], active => Or.inl rfl
  | e :: l, active => by
    have hstep : pick_fold hits (e :: l) active =
        pick_fold hits l (if hits e then some e.1 else active) := by
      simp [pick_fold]
    rcases pick_fold_result hits l (if hits e then some e.1 else active) with heq | ⟨e', he', ht', hp'⟩
    · by_cases hh : hits e = true
      · refine Or.inr ⟨e, List.mem_cons_self e l, hh, ?_⟩
        rw [hstep, heq, if_pos hh]
      · refine Or.inl ?_
        rw [hstep, heq, if_neg hh]
    · exact Or.inr ⟨e', List.mem_cons_of_mem e he', ht', by rw [hstep]; exact hp'⟩

/-- C9 counterexample: for a zero-width Transform the picking code invokes the
inverse-transform computation unguarded; the division `1.0 / 0.0` is actually
performed and evaluates to +inf (not prevented by any guard), and the
composed inverse matrix contains NaN entries. -/
theorem zero_size_inverse_unguarded :
    FV.div (FV.fin 1) (FV.fin 0) = FV.pinf ∧
    compute_inverse_transformation_matrix_F (Transform.mk (0, 0) (0, 1) 0) 0 2 =
      FV.nan := by
  refine ⟨FV.div_one_zero, ?_⟩
  unfold compute_inverse_transformation_matrix_F mulMatF
  exact dot4F_nan2 _ _ (zero_sx_row0 (Transform.mk (0, 0) (0, 1) 0) rfl)

/-- C9 amended: there is no guard; the inverse transform is computed for
zero-size entities as well, with IEEE semantics the division by zero yields
an infinity, the composed matrix row contains NaN, the transformed test
coordinate is NaN, every NaN comparison is false, so the hit test always
fails and a zero-size entity can never be newly reported as the active (hit)
entity; no crash occurs (the computation is total). -/
theorem zero_size_entity_never_picked (t : Transform)
    (hz : t.size.1 = 0 ∨ t.size.2 = 0) :
    (∀ world : ℝ × ℝ,
      test_point_F t world 0 = FV.nan ∨ test_point_F t world 1 = FV.nan) ∧
    (∀ world : ℝ × ℝ, ¬ hit_test_F t world) ∧
    (∀ (w : ℝ × ℝ) (hits : ℕ × Transform → Bool) (l : List (ℕ × Transform))
        (active : Option ℕ),
      (∀ e ∈ l, hits e = true ↔ hit_test_F e.2 w) →
      pick_fold hits l active = active ∨
        ∃ e ∈ l, pick_fold hits l active = some e.1 ∧ hit_test_F e.2 w) := by
  refine ⟨?_, ?_, ?_⟩
  · intro world
    rcases hz with h | h
    · exact Or.inl (zero_sx_test_point t h world)
    · exact Or.inr (zero_sy_test_point t h world)
  · intro world hhit
    obtain ⟨h1, h2, h3, h4⟩ := hhit
    rcases hz with h | h
    · rw [zero_sx_test_point t h world] at h1
      exact h1
    · rw [zero_sy_test_point t h world] at h3
      exact h3
  · intro w hits l active hlink
    rcases pick_fold_result hits l active with heq | ⟨e, he, ht, hp⟩
    · exact Or.inl heq
    · exact Or.inr ⟨e, he, hp, (hlink e he).mp ht⟩

/-- Witness for C9 amended at a Transform with zero width. -/
theorem zero_size_entity_never_picked_witness :
    ((0 : ℝ) = 0 ∨ (1 : ℝ) = 0) ∧
    ¬ hit_test_F (Transform.mk (0, 0) (0, 1) 0) (3, 7) :=
  ⟨Or.inl rfl,
    (zero_size_entity_never_picked (Transform.mk (0, 0) (0, 1) 0) (Or.inl rfl)).2.1 (3, 7)⟩

/-! ## Scene file save / load (C8)

The editor writer (src/editor/gui.rs, `save_requested` branch) emits one
record per entity: `tag`, newline, `x y width height rotation`, newline,
`r g b a`, optionally newline + script path, newline, and a `---` delimiter
line.  The reader (src/game.rs `Game::on_start`) trims the file, splits on
the string `"---\n"`, skips empty segments, splits each segment on `'\n'`,
and parses whitespace-separated numeric fields, panicking (modelled as
`Option.none`) on missing or unparsable fields.

Strings are modelled as `List Char`; the Rust `str` operations `trim`,
`split(pat)`, `split('\n')` and `split_whitespace` (standard-library
collaborators of the repository code) are given direct recursive
definitions.  The f32 fields are abstracted by an encoder/decoder pair
(`enc`, `dec`): Rust's float `Display`/`FromStr` round-trip exactly, emit
no whitespace, and never end in `'-'`, which is what the round-trip theorem
assumes of `enc`/`dec`. -/

def DELIM : List Char := ['-', '-', '-', '\n']

/-- `leadsWith p l` : `p` is a leading segment of `l`. -/
def leadsWith : List Char → List Char → Bool
  | [], _ => true
  | _ :: _, [] => false
  | p :: ps, c :: cs => p == c && leadsWith ps cs

/-- Whether the delimiter `"---\n"` occurs anywhere in `l`. -/
def containsDelim : List Char → Bool
  | [] => false
  | c :: rest => leadsWith DELIM (c :: rest) || containsDelim rest

/-- `l` ends with three dashes. -/
def threeDashSuffix (l : List Char) : Prop :=
  leadsWith ['-', '-', '-'] l.reverse = true

/-- Rust `str::split("---\n")`, structurally recursive: the counter skips the
remaining separator characters after a match. -/
def splitRecAux : ℕ → List Char → List (List Char)
  | _, [] => [[]]
  | n + 1, _ :: rest => splitRecAux n rest
  | 0, c :: rest =>
    if leadsWith DELIM (c :: rest) then [] :: splitRecAux 3 rest
    else
      match splitRecAux 0 rest with
      | [] => [[]]
      | s :: ss => (c :: s) :: ss

def splitRecords (l : List Char) : List (List Char) := splitRecAux 0 l

/-- Rust `str::split('\n')`. -/
def splitNl : List Char → List (List Char)
  | [] => [[]]
  | c :: rest =>
    match splitNl rest with
    | [] => [[]]
    | s :: ss => if c = '\n' then [] :: s :: ss else (c :: s) :: ss

/-- Rust `str::split_whitespace` (split on whitespace, drop empty pieces). -/
def splitWsAux : List Char → List (List Char)
  | [] => [[]]
  | c :: rest =>
    match splitWsAux rest with
    | [] => [[]]
    | s :: ss => if c.isWhitespace then [] :: s :: ss else (c :: s) :: ss

def split_whitespace_list (l : List Char) : List (List Char) :=
  (splitWsAux l).filter (fun s => !s.isEmpty)

/-- Rust `str::trim` (ASCII whitespace). -/
def trimLeftWs (l : List Char) : List Char := l.dropWhile Char.isWhitespace

def trimRightWs (l : List Char) : List Char :=
  (l.reverse.dropWhile Char.isWhitespace).reverse

def trimWs (l : List Char) : List Char := trimRightWs (trimLeftWs l)

/-- One scene entity as persisted: tag, transform fields, color fields, and
an optional script path, with the numeric type abstracted as `α`. -/
structure SceneEntity (α : Type) : Type where
  tag : List Char
  x : α
  y : α
  width : α
  height : α
  rotation : α
  r : α
  g : α
  b : α
  a : α
  script : Option (List Char)
  deriving DecidableEq

def joinSpace : List (List Char) → List Char
  | [] => []
  | [s] => s
  | s :: ss => s ++ ' ' :: joinSpace ss

/-- The writer's record for one entity (src/editor/gui.rs lines 291-324):
`format!("{}{}\n{}\n{}{}\n---\n", acc, tag, transform, color, wasm)` where
`wasm` is `"\n" + script` or empty. -/
def writeEntity {α : Type} (enc : α → List Char) (e : SceneEntity α) : List Char :=
  e.tag ++ '\n' ::
    (joinSpace [enc e.x, enc e.y, enc e.width, enc e.height, enc e.rotation] ++ '\n' ::
      (joinSpace [enc e.r, enc e.g, enc e.b, enc e.a] ++
        (match e.script with
         | some s => '\n' :: s
         | none => []) ++ '\n' :: DELIM))

def save_scene {α : Type} (enc : α → List Char) (es : List (SceneEntity α)) : List Char :=
  (es.map (writeEntity enc)).flatten

/-- The reader's per-record parse (src/game.rs lines 72-107): split the
segment on `'\n'`, take components 0/1/2 as tag/transform/color, parse five
then four whitespace-separated fields, and read a script path from component
3 when there are at least five components.  Rust panics (unwrap / index out
of bounds) are modelled as `none`. -/
def parseEntityRec {α : Type} (dec : List Char → Option α) (seg : List Char) :
    Option (SceneEntity α) :=
  match splitNl seg with
  | tag :: l1 :: l2 :: rest =>
    match split_whitespace_list l1 with
    | tx :: ty :: tw :: th :: tr :: _ =>
      match split_whitespace_list l2 with
      | cr :: cg :: cb :: ca :: _ => do
        let x ← dec tx
        let y ← dec ty
        let width ← dec tw
        let height ← dec th
        let rotation ← dec tr
        let r ← dec cr
        let g ← dec cg
        let b ← dec cb
        let a ← dec ca
        let script : Option (List Char) :=
          match rest with
          | s :: _ :: _ => some (trimWs s)
          | _ => none
        pure { tag := tag, x := x, y := y, width := width, height := height,
               rotation := rotation, r := r, g := g, b := b, a := a,
               script := script }
      | _ => none
    | _ => none
  | _ => none

/-- The reader's record loop: parse every segment, failing the whole load on
the first bad record (the Rust loop panics there). -/
def parseAll {α : Type} (dec : List Char → Option α) :
    List (List Char) → Option (List (SceneEntity α))
  | [] => some []
  | seg :: segs => do
    let e ← parseEntityRec dec seg
    let es ← parseAll dec segs
    pure (e :: es)

/-- The reader (src/game.rs `Game::on_start`): trim the file, split on
`"---\n"`, drop empty segments, parse every segment. -/
def load_scene {α : Type} (dec : List Char → Option α) (file : List Char) :
    Option (List (SceneEntity α)) :=
  parseAll dec ((splitRecords (trimWs file)).filter (fun s => !s.isEmpty))

/-- C8 counterexample: an entity whose tag is the delimiter line `---` breaks
the round trip.  The writer emits `---\n0 0 0 0 0\n0 0 0 0\n---\n`; the
reader's split on `"---\n"` then cuts at the tag itself, the first surviving
segment starts at the transform line, its second line has only four fields,
and the load crashes (modelled as `none`) instead of reproducing the entity. -/
theorem scene_roundtrip_cex :
    load_scene (fun l => if l = ['0'] then some (0 : Fin 1) else none)
      (save_scene (fun _ : Fin 1 => ['0'])
        [{ tag := ['-', '-', '-'], x := 0, y := 0, width := 0, height := 0,
           rotation := 0, r := 0, g := 0, b := 0, a := 0, script := none }]) =
      none := by
  decide

lemma leadsWith_append_cases (p : List Char) :
    ∀ (l rest : List Char), leadsWith p (l ++ rest) = true →
      (p.length ≤ l.length ∧ leadsWith p l = true) ∨
        (l.length < p.length ∧ leadsWith l p = true) := by
  induction p with
  | nil => intro l rest _; exact Or.inl ⟨Nat.zero_le _, rfl⟩
  | cons a p ih =>
    intro l rest h
    cases l with
    | nil => exact Or.inr ⟨by simp, rfl⟩
    | cons c l =>
      simp only [List.cons_append, leadsWith, Bool.and_eq_true, beq_iff_eq] at h
      obtain ⟨hac, h2⟩ := h
      rcases ih l rest h2 with ⟨hle, hl⟩ | ⟨hlt, hl⟩
      · exact Or.inl ⟨by simpa using Nat.succ_le_succ hle,
          by simp [leadsWith, hac, hl]⟩
      · exact Or.inr ⟨by simpa using Nat.succ_lt_succ hlt,
          by simp [leadsWith, hac, hl]⟩

lemma dash_prefix_last :
    ∀ l : List Char, l ≠ [] → l.length < 4 → leadsWith l DELIM = true →
      l.getLast? = some '-'
  | [], h, _, _ => absurd rfl h
  | [a], _, _, h => by
    simp [leadsWith, DELIM] at h
    simp [h]
  | [a, b], _, _, h => by
    simp [leadsWith, DELIM] at h
    simp [h.2]
  | [a, b, c], _, _, h => by
    simp [leadsWith, DELIM] at h
    simp [h.2.2]
  | a :: b :: c :: d :: l, _, hlen, _ => by
    simp [List.length_cons] at hlen
    omega

lemma not_leadsWith_delim (l rest : List Char) (hl : l ≠ [])
    (hnd : containsDelim l = false) (hend : l.getLast? ≠ some '-') :
    leadsWith DELIM (l ++ rest) = false := by
  by_contra hcon
  rw [Bool.not_eq_false] at hcon
  rcases leadsWith_append_cases DELIM l rest hcon with ⟨_, hlw⟩ | ⟨hlt, hlw⟩
  · cases l with
    | nil => exact hl rfl
    | cons c l' =>
      rw [containsDelim] at hnd
      simp [hlw] at hnd
  · exact hend (dash_prefix_last l hl (by simpa [DELIM] using hlt) hlw)

lemma leadsWith_delim_delim (rest : List Char) :
    leadsWith DELIM (DELIM ++ rest) = true := by
  simp [leadsWith, DELIM]

lemma splitRecords_delim_append (l rest : List Char)
    (hnd : containsDelim l = false) (hend : l.getLast? ≠ some '-') :
    splitRecords (l ++ DELIM ++ rest) = l :: splitRecords rest := by
  induction l with
  | nil =>
    show splitRecAux 0 (DELIM ++ rest) = [] :: splitRecAux 0 rest
    simp [DELIM, splitRecAux, leadsWith]
  | cons c l' ih =>
    have hnd' : containsDelim l' = false := by
      rw [containsDelim] at hnd
      exact (Bool.or_eq_false_iff.mp hnd).2
    have hend' : l'.getLast? ≠ some '-' := by
      cases l' with
      | nil => simp
      | cons b l'' =>
        rw [List.getLast?_cons_cons] at hend
        exact hend
    have hlw : leadsWith DELIM ((c :: l') ++ (DELIM ++ rest)) = false :=
      not_leadsWith_delim (c :: l') (DELIM ++ rest) (by simp) hnd hend
    show splitRecAux 0 ((c :: l') ++ DELIM ++ rest) = (c :: l') :: splitRecAux 0 rest
    have harr : (c :: l') ++ DELIM ++ rest = c :: (l' ++ DELIM ++ rest) := by simp
    rw [harr]
    rw [splitRecAux]
    rw [if_neg (by simp only [List.cons_append, List.append_assoc] at hlw ⊢; simp [hlw])]
    have ihr : splitRecAux 0 (l' ++ DELIM ++ rest) = l' :: splitRecAux 0 rest := ih hnd' hend'
    rw [ihr]

lemma splitRecords_last (l : List Char) (hnd : containsDelim l = false)
    (hend : l.getLast? ≠ some '-') :
    splitRecords (l ++ ['-', '-', '-']) = [l ++ ['-', '-', '-']] := by
  induction l with
  | nil => decide
  | cons c l' ih =>
    have hnd' : containsDelim l' = false := by
      rw [containsDelim] at hnd
      exact (Bool.or_eq_false_iff.mp hnd).2
    have hend' : l'.getLast? ≠ some '-' := by
      cases l' with
      | nil => simp
      | cons b l'' =>
        rw [List.getLast?_cons_cons] at hend
        exact hend
    have hlw : leadsWith DELIM ((c :: l') ++ ['-', '-', '-']) = false :=
      not_leadsWith_delim (c :: l') ['-', '-', '-'] (by simp) hnd hend
    show splitRecAux 0 ((c :: l') ++ ['-', '-', '-']) = [(c :: l') ++ ['-', '-', '-']]
    have harr : (c :: l') ++ ['-', '-', '-'] = c :: (l' ++ ['-', '-', '-']) := by simp
    rw [harr]
    rw [splitRecAux]
    rw [if_neg (by simp only [List.cons_append, List.append_assoc] at hlw ⊢; simp [hlw])]
    have ihr : splitRecAux 0 (l' ++ ['-', '-', '-']) = [l' ++ ['-', '-', '-']] := ih hnd' hend'
    rw [ihr]

lemma trimLeftWs_cons (c : Char) (l : List Char) (h : ¬ c.isWhitespace) :
    trimLeftWs (c :: l) = c :: l := by
  simp [trimLeftWs, List.dropWhile_cons, h]

lemma trimRightWs_append_nonws (l : List Char) (c : Char) (h : ¬ c.isWhitespace) :
    trimRightWs (l ++ [c]) = l ++ [c] := by
  simp [trimRightWs, List.dropWhile_cons, h]

lemma trimRightWs_append_nl (l : List Char) :
    trimRightWs (l ++ ['\n']) = trimRightWs l := by
  simp [trimRightWs, List.dropWhile_cons]

lemma splitNl_ne_nil : ∀ l : List Char, splitNl l ≠ []
  | [] => by simp [splitNl]
  | c :: rest => by
    rw [splitNl]
    rcases hrec : splitNl rest with _ | ⟨s, ss⟩
    · simp
    · by_cases hc : c = '\n' <;> simp [hc]

lemma splitNl_no_newline : ∀ l : List Char, '\n' ∉ l → splitNl l = [l]
  | [], _ => rfl
  | c :: rest, h => by
    have hc : ¬ c = '\n' := fun hc => h (by simp [hc])
    have hrest : '\n' ∉ rest := fun hr => h (List.mem_cons_of_mem c hr)
    rw [splitNl, splitNl_no_newline rest hrest]
    simp [hc]

lemma splitNl_append : ∀ (a rest : List Char), '\n' ∉ a →
    splitNl (a ++ '\n' :: rest) = a :: splitNl rest
  | [], rest, _ => by
    rw [List.nil_append, splitNl]
    rcases hrec : splitNl rest with _ | ⟨s, ss⟩
    · exact absurd hrec (splitNl_ne_nil rest)
    · simp
  | c :: a', rest, h => by
    have hc : ¬ c = '\n' := fun hc => h (by simp [hc])
    have ha' : '\n' ∉ a' := fun hr => h (List.mem_cons_of_mem c hr)
    rw [List.cons_append, splitNl, splitNl_append a' rest ha']
    simp [hc]

lemma splitWsAux_ne_nil : ∀ l : List Char, splitWsAux l ≠ []
  | [] => by simp [splitWsAux]
  | c :: rest => by
    rw [splitWsAux]
    rcases hrec : splitWsAux rest with _ | ⟨s, ss⟩
    · simp
    · by_cases hc : c.isWhitespace <;> simp [hc]

lemma splitWsAux_no_ws : ∀ l : List Char, (∀ c ∈ l, ¬ c.isWhitespace) →
    splitWsAux l = [l]
  | [], _ => rfl
  | c :: rest, h => by
    have hc : ¬ c.isWhitespace := h c (List.mem_cons_self c rest)
    have hrest : ∀ c' ∈ rest, ¬ c'.isWhitespace :=
      fun c' hc' => h c' (List.mem_cons_of_mem c hc')
    rw [splitWsAux, splitWsAux_no_ws rest hrest]
    simp [hc]

lemma splitWsAux_append : ∀ (a rest : List Char), (∀ c ∈ a, ¬ c.isWhitespace) →
    splitWsAux (a ++ ' ' :: rest) = a :: splitWsAux rest
  | [], rest, _ => by
    rw [List.nil_append, splitWsAux]
    rcases hrec : splitWsAux rest with _ | ⟨s, ss⟩
    · exact absurd hrec (splitWsAux_ne_nil rest)
    · simp
  | c :: a', rest, h => by
    have hc : ¬ c.isWhitespace := h c (List.mem_cons_self c a')
    have ha' : ∀ c' ∈ a', ¬ c'.isWhitespace :=
      fun c' hc' => h c' (List.mem_cons_of_mem c hc')
    rw [List.cons_append, splitWsAux, splitWsAux_append a' rest ha']
    simp [hc]

lemma splitWs_join : ∀ fs : List (List Char),
    (∀ f ∈ fs, f ≠ [] ∧ ∀ c ∈ f, ¬ c.isWhitespace) →
    split_whitespace_list (joinSpace fs) = fs
  | [], _ => rfl
  | [f], h => by
    obtain ⟨hne, hws⟩ := h f (List.mem_singleton.mpr rfl)
    rw [split_whitespace_list, joinSpace, splitWsAux_no_ws f hws]
    simp [hne]
  | f :: f' :: fs, h => by
    obtain ⟨hne, hws⟩ := h f (List.mem_cons_self f _)
    have hrest : ∀ g ∈ f' :: fs, g ≠ [] ∧ ∀ c ∈ g, ¬ c.isWhitespace :=
      fun g hg => h g (List.mem_cons_of_mem f hg)
    have hjoin : joinSpace (f :: f' :: fs) = f ++ ' ' :: joinSpace (f' :: fs) := rfl
    rw [split_whitespace_list, hjoin, splitWsAux_append f _ hws]
    have ih := splitWs_join (f' :: fs) hrest
    rw [split_whitespace_list] at ih
    simp only [List.filter_cons, ih]
    simp [hne]

lemma leadsWith_append_right : ∀ (p l r : List Char),
    leadsWith p l = true → leadsWith p (l ++ r) = true
  | [], _, _, _ => rfl
  | p :: ps, [], r, h => by simp [leadsWith] at h
  | p :: ps, c :: cs, r, h => by
    simp only [leadsWith, Bool.and_eq_true, beq_iff_eq] at h
    simp only [List.cons_append, leadsWith, Bool.and_eq_true, beq_iff_eq]
    exact ⟨h.1, leadsWith_append_right ps cs r h.2⟩

lemma not_threeDash_of_getLast (l : List Char) (h : l.getLast? ≠ some '-') :
    ¬ threeDashSuffix l := by
  intro h3
  rw [threeDashSuffix] at h3
  rcases hrev : l.reverse with _ | ⟨x, rev'⟩
  · rw [hrev] at h3
    simp [leadsWith] at h3
  · rw [hrev] at h3
    simp only [leadsWith, Bool.and_eq_true, beq_iff_eq] at h3
    apply h
    have : l.reverse.head? = l.getLast? := List.head?_reverse l
    rw [hrev] at this
    simp only [List.head?_cons] at this
    rw [← this, ← h3.1]

lemma threeDash_cons (c : Char) (a : List Char) (h : threeDashSuffix a) :
    threeDashSuffix (c :: a) := by
  rw [threeDashSuffix] at h ⊢
  rw [List.reverse_cons]
  exact leadsWith_append_right _ _ _ h

lemma mem_joinSpace : ∀ (fs : List (List Char)) (c : Char),
    c ∈ joinSpace fs → c = ' ' ∨ ∃ f ∈ fs, c ∈ f
  | [], c, h => by simp [joinSpace] at h
  | [f], c, h => by
    rw [joinSpace] at h
    exact Or.inr ⟨f, List.mem_singleton.mpr rfl, h⟩
  | f :: f' :: fs, c, h => by
    rw [show joinSpace (f :: f' :: fs) = f ++ ' ' :: joinSpace (f' :: fs) from rfl] at h
    rcases List.mem_append.mp h with hf | hrest
    · exact Or.inr ⟨f, List.mem_cons_self f _, hf⟩
    · rcases List.mem_cons.mp hrest with hsp | hj
      · exact Or.inl hsp
      · rcases mem_joinSpace (f' :: fs) c hj with hsp | ⟨g, hg, hcg⟩
        · exact Or.inl hsp
        · exact Or.inr ⟨g, List.mem_cons_of_mem f hg, hcg⟩

lemma joinSpace_ne_nil : ∀ fs : List (List Char), fs ≠ [] →
    (∀ f ∈ fs, f ≠ []) → joinSpace fs ≠ []
  | [], h, _ => absurd rfl h
  | [f], _, hne => by
    rw [joinSpace]
    exact hne f (List.mem_singleton.mpr rfl)
  | f :: f' :: fs, _, hne => by
    rw [show joinSpace (f :: f' :: fs) = f ++ ' ' :: joinSpace (f' :: fs) from rfl]
    simp

lemma joinSpace_getLast : ∀ fs : List (List Char), fs ≠ [] →
    (∀ f ∈ fs, f ≠ []) → (∀ f ∈ fs, f.getLast? ≠ some '-') →
    (joinSpace fs).getLast? ≠ some '-'
  | [], h, _, _ => absurd rfl h
  | [f], _, _, hlast => by
    rw [joinSpace]
    exact hlast f (List.mem_singleton.mpr rfl)
  | f :: f' :: fs, _, hne, hlast => by
    rw [show joinSpace (f :: f' :: fs) = f ++ ' ' :: joinSpace (f' :: fs) from rfl]
    have hrec : (joinSpace (f' :: fs)).getLast? ≠ some '-' :=
      joinSpace_getLast (f' :: fs) (by simp)
        (fun g hg => hne g (List.mem_cons_of_mem f hg))
        (fun g hg => hlast g (List.mem_cons_of_mem f hg))
    have hjne : joinSpace (f' :: fs) ≠ [] :=
      joinSpace_ne_nil (f' :: fs) (by simp)
        (fun g hg => hne g (List.mem_cons_of_mem f hg))
    rcases hj : joinSpace (f' :: fs) with _ | ⟨j, J⟩
    · exact absurd hj hjne
    · rw [hj] at hrec
      rw [List.getLast?_append, List.getLast?_cons_cons]
      rcases hx : (j :: J).getLast? with _ | x
      · simp at hx
      · rw [hx] at hrec
        simpa [Option.or] using hrec

lemma not_leadsWith_delim_line (c : Char) (a' rest : List Char)
    (ha : '\n' ∉ (c :: a')) (ha3 : ¬ threeDashSuffix (c :: a')) :
    leadsWith DELIM (c :: (a' ++ '\n' :: rest)) = false := by
  match a' with
  | [] => simp [leadsWith, DELIM]
  | [b] => simp [leadsWith, DELIM]
  | [b, d] =>
    by_contra hcon
    rw [Bool.not_eq_false] at hcon
    simp only [DELIM, List.cons_append, List.nil_append, leadsWith,
      Bool.and_eq_true, beq_iff_eq] at hcon
    apply ha3
    rw [threeDashSuffix]
    simp only [List.reverse_cons, List.reverse_nil, List.nil_append,
      List.singleton_append, List.cons_append]
    simp only [leadsWith, Bool.and_eq_true, beq_iff_eq, and_true]
    exact ⟨hcon.2.2.1, hcon.2.1, hcon.1⟩
  | b :: d :: e :: a'' =>
    by_contra hcon
    rw [Bool.not_eq_false] at hcon
    simp only [DELIM, List.cons_append, leadsWith, Bool.and_eq_true, beq_iff_eq] at hcon
    exact ha (by
      simp only [List.mem_cons]
      exact Or.inr (Or.inr (Or.inr (Or.inl hcon.2.2.2.1))))

lemma containsDelim_line_cons : ∀ (a rest : List Char), '\n' ∉ a →
    ¬ threeDashSuffix a → containsDelim rest = false →
    containsDelim (a ++ '\n' :: rest) = false
  | [], rest, _, _, hrest => by
    rw [List.nil_append, containsDelim]
    simp [leadsWith, DELIM, hrest]
  | c :: a', rest, ha, ha3, hrest => by
    have ha'' : '\n' ∉ a' := fun hr => ha (List.mem_cons_of_mem c hr)
    have ha3' : ¬ threeDashSuffix a' := fun h => ha3 (threeDash_cons c a' h)
    rw [List.cons_append, containsDelim]
    rw [containsDelim_line_cons a' rest ha'' ha3' hrest]
    simp [not_leadsWith_delim_line c a' rest ha ha3]

def transformLine {α : Type} (enc : α → List Char) (e : SceneEntity α) : List Char :=
  joinSpace [enc e.x, enc e.y, enc e.width, enc e.height, enc e.rotation]

def colorLine {α : Type} (enc : α → List Char) (e : SceneEntity α) : List Char :=
  joinSpace [enc e.r, enc e.g, enc e.b, enc e.a]

/-- The record body: everything before the final newline and delimiter line. -/
def entityBody {α : Type} (enc : α → List Char) (e : SceneEntity α) : List Char :=
  e.tag ++ '\n' ::
    (transformLine enc e ++ '\n' ::
      (colorLine enc e ++
        (match e.script with
         | some s => '\n' :: s
         | none => [])))

lemma writeEntity_eq {α : Type} (enc : α → List Char) (e : SceneEntity α) :
    writeEntity enc e = (entityBody enc e ++ ['\n']) ++ DELIM := by
  cases hs : e.script <;>
    simp [writeEntity, entityBody, transformLine, colorLine, hs, DELIM]

lemma line_no_newline (fs : List (List Char))
    (h : ∀ f ∈ fs, ∀ c ∈ f, ¬ c.isWhitespace) : '\n' ∉ joinSpace fs := by
  intro hmem
  rcases mem_joinSpace fs '\n' hmem with h' | ⟨f, hf, hc⟩
  · exact absurd h' (by decide)
  · exact (h f hf '\n' hc) (by decide)

lemma transformLine_fields {α : Type} (enc : α → List Char) (e : SceneEntity α)
    (hne : ∀ v, enc v ≠ []) (hws : ∀ v, ∀ c ∈ enc v, ¬ c.isWhitespace) :
    ∀ f ∈ [enc e.x, enc e.y, enc e.width, enc e.height, enc e.rotation],
      f ≠ [] ∧ ∀ c ∈ f, ¬ c.isWhitespace := by
  intro f hf
  simp only [List.mem_cons, List.not_mem_nil, or_false] at hf
  rcases hf with h | h | h | h | h <;> (subst h; exact ⟨hne _, hws _⟩)

lemma colorLine_fields {α : Type} (enc : α → List Char) (e : SceneEntity α)
    (hne : ∀ v, enc v ≠ []) (hws : ∀ v, ∀ c ∈ enc v, ¬ c.isWhitespace) :
    ∀ f ∈ [enc e.r, enc e.g, enc e.b, enc e.a],
      f ≠ [] ∧ ∀ c ∈ f, ¬ c.isWhitespace := by
  intro f hf
  simp only [List.mem_cons, List.not_mem_nil, or_false] at hf
  rcases hf with h | h | h | h <;> (subst h; exact ⟨hne _, hws _⟩)

lemma parseEntityRec_body {α : Type} (enc : α → List Char) (dec : List Char → Option α)
    (e : SceneEntity α) (tail : List Char)
    (hdec : ∀ v, dec (enc v) = some v)
    (hne : ∀ v, enc v ≠ [])
    (hws : ∀ v, ∀ c ∈ enc v, ¬ c.isWhitespace)
    (htag : '\n' ∉ e.tag)
    (hscript : ∀ s, e.script = some s → '\n' ∉ s)
    (htail : '\n' ∉ tail) :
    parseEntityRec dec ((entityBody enc e ++ ['\n']) ++ tail) =
      some { e with script := e.script.map trimWs } := by
  have hL1nl : '\n' ∉ transformLine enc e :=
    line_no_newline _ (fun f hf => (transformLine_fields enc e hne hws f hf).2)
  have hL2nl : '\n' ∉ colorLine enc e :=
    line_no_newline _ (fun f hf => (colorLine_fields enc e hne hws f hf).2)
  have hL1 : split_whitespace_list (transformLine enc e) =
      [enc e.x, enc e.y, enc e.width, enc e.height, enc e.rotation] :=
    splitWs_join _ (transformLine_fields enc e hne hws)
  have hL2 : split_whitespace_list (colorLine enc e) =
      [enc e.r, enc e.g, enc e.b, enc e.a] :=
    splitWs_join _ (colorLine_fields enc e hne hws)
  cases hs : e.script with
  | none =>
    have harr : (entityBody enc e ++ ['\n']) ++ tail =
        e.tag ++ '\n' :: (transformLine enc e ++ '\n' ::
          (colorLine enc e ++ '\n' :: tail)) := by
      rw [entityBody, hs]
      simp
    have hsplit : splitNl ((entityBody enc e ++ ['\n']) ++ tail) =
        [e.tag, transformLine enc e, colorLine enc e, tail] := by
      rw [harr, splitNl_append _ _ htag, splitNl_append _ _ hL1nl,
        splitNl_append _ _ hL2nl, splitNl_no_newline tail htail]
    rw [parseEntityRec, hsplit]
    simp only [hL1, hL2]
    simp only [hdec, Option.bind_some]
    simp [hs]
  | some s =>
    have hsnl : '\n' ∉ s := hscript s hs
    have harr : (entityBody enc e ++ ['\n']) ++ tail =
        e.tag ++ '\n' :: (transformLine enc e ++ '\n' ::
          (colorLine enc e ++ '\n' :: (s ++ '\n' :: tail))) := by
      rw [entityBody, hs]
      simp
    have hsplit : splitNl ((entityBody enc e ++ ['\n']) ++ tail) =
        [e.tag, transformLine enc e, colorLine enc e, s, tail] := by
      rw [harr, splitNl_append _ _ htag, splitNl_append _ _ hL1nl,
        splitNl_append _ _ hL2nl, splitNl_append _ _ hsnl,
        splitNl_no_newline tail htail]
    rw [parseEntityRec, hsplit]
    simp only [hL1, hL2]
    simp only [hdec, Option.bind_some]
    simp [hs]

/-- The per-entity well-formedness conditions under which a record survives
the writer/reader round trip. -/
def goodEntity {α : Type} (e : SceneEntity α) : Prop :=
  e.tag ≠ [] ∧ '\n' ∉ e.tag ∧ ¬ threeDashSuffix e.tag ∧
    (∀ c, e.tag.head? = some c → ¬ c.isWhitespace) ∧
    (∀ s, e.script = some s → '\n' ∉ s ∧ ¬ threeDashSuffix s)

lemma entityLine_no_delim {α : Type} (enc : α → List Char) (e : SceneEntity α)
    (hne : ∀ v, enc v ≠ []) (hws : ∀ v, ∀ c ∈ enc v, ¬ c.isWhitespace)
    (hdash : ∀ v, (enc v).getLast? ≠ some '-') (hgood : goodEntity e) :
    containsDelim (entityBody enc e ++ ['\n']) = false := by
  obtain ⟨htagne, htagnl, htag3, _, hscript⟩ := hgood
  have hL1nl : '\n' ∉ transformLine enc e :=
    line_no_newline _ (fun f hf => (transformLine_fields enc e hne hws f hf).2)
  have hL2nl : '\n' ∉ colorLine enc e :=
    line_no_newline _ (fun f hf => (colorLine_fields enc e hne hws f hf).2)
  have hL1last : (transformLine enc e).getLast? ≠ some '-' :=
    joinSpace_getLast _ (by simp)
      (fun f hf => (transformLine_fields enc e hne hws f hf).1)
      (by
        intro f hf
        simp only [List.mem_cons, List.not_mem_nil, or_false] at hf
        rcases hf with h | h | h | h | h <;> (subst h; exact hdash _))
  have hL2last : (colorLine enc e).getLast? ≠ some '-' :=
    joinSpace_getLast _ (by simp)
      (fun f hf => (colorLine_fields enc e hne hws f hf).1)
      (by
        intro f hf
        simp only [List.mem_cons, List.not_mem_nil, or_false] at hf
        rcases hf with h | h | h | h <;> (subst h; exact hdash _))
  have hL13 : ¬ threeDashSuffix (transformLine enc e) :=
    not_threeDash_of_getLast _ hL1last
  have hL23 : ¬ threeDashSuffix (colorLine enc e) :=
    not_threeDash_of_getLast _ hL2last
  cases hs : e.script with
  | none =>
    have harr : entityBody enc e ++ ['\n'] =
        e.tag ++ '\n' :: (transformLine enc e ++ '\n' ::
          (colorLine enc e ++ '\n' :: [])) := by
      rw [entityBody, hs]
      simp
    rw [harr]
    exact containsDelim_line_cons _ _ htagnl htag3
      (containsDelim_line_cons _ _ hL1nl hL13
        (containsDelim_line_cons _ _ hL2nl hL23 rfl))
  | some s =>
    obtain ⟨hsnl, hs3⟩ := hscript s hs
    have harr : entityBody enc e ++ ['\n'] =
        e.tag ++ '\n' :: (transformLine enc e ++ '\n' ::
          (colorLine enc e ++ '\n' :: (s ++ '\n' :: []))) := by
      rw [entityBody, hs]
      simp
    rw [harr]
    exact containsDelim_line_cons _ _ htagnl htag3
      (containsDelim_line_cons _ _ hL1nl hL13
        (containsDelim_line_cons _ _ hL2nl hL23
          (containsDelim_line_cons _ _ hsnl hs3 rfl)))

lemma entityLine_getLast {α : Type} (enc : α → List Char) (e : SceneEntity α) :
    (entityBody enc e ++ ['\n']).getLast? = some '\n' := by
  simp

/-- The trimmed scene file: record lines joined by delimiters, the final
delimiter missing its newline (eaten by `trim`). -/
def sceneTail {α : Type} (enc : α → List Char) : List (SceneEntity α) → List Char
  | [] => []
  | [e] => (entityBody enc e ++ ['\n']) ++ ['-', '-', '-']
  | e :: e' :: es => ((entityBody enc e ++ ['\n']) ++ DELIM) ++ sceneTail enc (e' :: es)

lemma save_eq_sceneTail {α : Type} (enc : α → List Char) :
    ∀ es : List (SceneEntity α), es ≠ [] →
      save_scene enc es = sceneTail enc es ++ ['\n']
  | [], h => absurd rfl h
  | [e], _ => by
    rw [save_scene, sceneTail]
    simp only [List.map_cons, List.map_nil, List.flatten_cons, List.flatten_nil,
      List.append_nil]
    rw [writeEntity_eq]
    simp [DELIM]
  | e :: e' :: es, _ => by
    rw [save_scene, sceneTail]
    simp only [List.map_cons, List.flatten_cons]
    have ih := save_eq_sceneTail enc (e' :: es) (by simp)
    rw [save_scene] at ih
    simp only [List.map_cons, List.flatten_cons] at ih
    rw [ih, writeEntity_eq]
    simp

lemma sceneTail_dash {α : Type} (enc : α → List Char) :
    ∀ es : List (SceneEntity α), es ≠ [] →
      ∃ Z, sceneTail enc es = Z ++ ['-']
  | [], h => absurd rfl h
  | [e], _ => ⟨(entityBody enc e ++ ['\n']) ++ ['-', '-'], by rw [sceneTail]; simp⟩
  | e :: e' :: es, _ => by
    obtain ⟨Z, hZ⟩ := sceneTail_dash enc (e' :: es) (by simp)
    exact ⟨((entityBody enc e ++ ['\n']) ++ DELIM) ++ Z, by rw [sceneTail, hZ]; simp⟩

lemma trim_save {α : Type} (enc : α → List Char) (e : SceneEntity α)
    (es' : List (SceneEntity α)) (hgood : ∀ x ∈ e :: es', goodEntity x) :
    trimWs (save_scene enc (e :: es')) = sceneTail enc (e :: es') := by
  obtain ⟨htagne, _, _, hhead, _⟩ := hgood e (List.mem_cons_self e es')
  obtain ⟨c, t', htag⟩ : ∃ c t', e.tag = c :: t' := by
    cases htag' : e.tag with
    | nil => exact absurd htag' htagne
    | cons c t' => exact ⟨c, t', rfl⟩
  have hcws : ¬ c.isWhitespace := hhead c (by rw [htag]; rfl)
  have hshape : ∃ REST, save_scene enc (e :: es') = e.tag ++ REST := by
    refine ⟨'\n' ::
      (transformLine enc e ++ '\n' ::
        (colorLine enc e ++
          (match e.script with
           | some s => '\n' :: s
           | none => []) ++ '\n' :: DELIM)) ++
      (List.map (writeEntity enc) es').flatten, ?_⟩
    rw [save_scene]
    simp only [List.map_cons, List.flatten_cons]
    rw [writeEntity]
    simp [transformLine, colorLine]
  obtain ⟨REST, hREST⟩ := hshape
  have hleft : trimLeftWs (save_scene enc (e :: es')) = save_scene enc (e :: es') := by
    rw [hREST, htag, List.cons_append, trimLeftWs_cons c _ hcws]
  rw [trimWs, hleft, save_eq_sceneTail enc (e :: es') (by simp),
    trimRightWs_append_nl]
  obtain ⟨Z, hZ⟩ := sceneTail_dash enc (e :: es') (by simp)
  rw [hZ, trimRightWs_append_nonws Z '-' (by decide)]

lemma parse_sceneTail {α : Type} (enc : α → List Char) (dec : List Char → Option α)
    (hdec : ∀ v, dec (enc v) = some v) (hne : ∀ v, enc v ≠ [])
    (hws : ∀ v, ∀ c ∈ enc v, ¬ c.isWhitespace)
    (hdash : ∀ v, (enc v).getLast? ≠ some '-') :
    ∀ es : List (SceneEntity α), es ≠ [] → (∀ e ∈ es, goodEntity e) →
      parseAll dec ((splitRecords (sceneTail enc es)).filter (fun s => !s.isEmpty)) =
        some (es.map fun e => { e with script := e.script.map trimWs })
  | [], h, _ => absurd rfl h
  | [e], _, hgood => by
    have hg := hgood e (List.mem_cons_self e [])
    rw [sceneTail]
    rw [splitRecords_last _ (entityLine_no_delim enc e hne hws hdash hg)
      (by rw [entityLine_getLast]; simp)]
    have hparse := parseEntityRec_body enc dec e ['-', '-', '-'] hdec hne hws
      hg.2.1 (fun s hs => (hg.2.2.2.2 s hs).1) (by decide)
    simp only [List.append_assoc, List.singleton_append, List.cons_append,
      List.nil_append] at hparse
    simp [List.filter_cons, parseAll, hparse]
  | e :: e' :: es, _, hgood => by
    have hg := hgood e (List.mem_cons_self e _)
    rw [sceneTail]
    rw [splitRecords_delim_append _ _ (entityLine_no_delim enc e hne hws hdash hg)
      (by rw [entityLine_getLast]; simp)]
    have hparse := parseEntityRec_body enc dec e [] hdec hne hws
      hg.2.1 (fun s hs => (hg.2.2.2.2 s hs).1) (by simp)
    rw [List.append_nil] at hparse
    have ih := parse_sceneTail enc dec hdec hne hws hdash (e' :: es) (by simp)
      (fun x hx => hgood x (List.mem_cons_of_mem e hx))
    simp [List.filter_cons, parseAll, hparse, ih]

/-- C8 amended: saving then loading reproduces every entity's tag, transform
and color fields exactly, and script paths survive up to `trim`, provided
the numeric encoder/decoder round-trip exactly and emit nonempty,
whitespace-free strings not ending in `'-'` (true of Rust's f32
Display/FromStr), every tag is nonempty, contains no newline, does not end
in `---` and does not start with whitespace, and every script path contains
no newline and does not end in `---`.  The tag and the script conditions are
each load-bearing: a tag equal to `---` (the counterexample), a script
containing a newline, or a script ending in `---` each makes the reader's
split on the delimiter cut inside the record, crashing or corrupting the
load. -/
theorem scene_save_load_roundtrip {α : Type} (enc : α → List Char)
    (dec : List Char → Option α) (es : List (SceneEntity α))
    (hdec : ∀ v, dec (enc v) = some v)
    (hne : ∀ v, enc v ≠ [])
    (hws : ∀ v, ∀ c ∈ enc v, ¬ c.isWhitespace)
    (hdash : ∀ v, (enc v).getLast? ≠ some '-')
    (hgood : ∀ e ∈ es, goodEntity e) :
    load_scene dec (save_scene enc es) =
      some (es.map fun e => { e with script := e.script.map trimWs }) := by
  cases es with
  | nil => rfl
  | cons e es' =>
    rw [load_scene, trim_save enc e es' hgood]
    exact parse_sceneTail enc dec hdec hne hws hdash (e :: es') (by simp) hgood

/-- A trivial exact numeric encoder over `Fin 1`, for witnesses. -/
def encF1 : Fin 1 → List Char := fun _ => ['0']

def decF1 : List Char → Option (Fin 1) := fun l => if l = ['0'] then some 0 else none

def entityE : SceneEntity (Fin 1) where
  tag := ['e']
  x := 0
  y := 0
  width := 0
  height := 0
  rotation := 0
  r := 0
  g := 0
  b := 0
  a := 0
  script := none

lemma goodEntity_entityE : goodEntity entityE := by
  refine ⟨by decide, by decide, by unfold threeDashSuffix; decide, ?_, ?_⟩
  · intro c hc
    simp only [entityE, List.head?_cons, Option.some.injEq] at hc
    subst hc
    decide
  · intro s hs
    exact Option.noConfusion hs

/-- Witness for C8 amended: a one-entity scene with tag `e` and a trivial
exact encoder round-trips. -/
theorem scene_save_load_roundtrip_witness :
    goodEntity entityE ∧
    load_scene decF1 (save_scene encF1 [entityE]) =
      some ([entityE].map fun e => { e with script := e.script.map trimWs }) := by
  refine ⟨goodEntity_entityE, ?_⟩
  exact scene_save_load_roundtrip encF1 decF1 [entityE]
    (by decide) (by decide) (by decide) (by decide)
    (by
      intro x hx
      simp only [List.mem_singleton] at hx
      subst hx
      exact goodEntity_entityE)
